import Mathlib

/-!
Verification of the lazily-materialized clan model (`coc/clans.py`).

The Python module defines two read-only entity views over decoded JSON
records:

* `RankedClan` — eager field extraction with `None` ("unknown") defaults;
* `Clan` — the same eager extraction plus two lazily materialized, cached
  collections (`labels`, `members`), a keyed lookup `get_member`, and a
  predicate lookup `get_member_by`.

The embedding below translates the module faithfully:

* A decoded JSON record becomes `ClanData`, a structure of `Option` fields
  (Python's `dict.get` returns `None` on a missing key).
* The one-shot generator expressions `__iter_labels` / `__iter_members`
  become lists of still-unconsumed source sub-records stored in the state;
  draining a generator maps the collaborator constructor over the remaining
  elements and leaves the generator exhausted (remaining list `[]`).
* Python's insertion-ordered `dict` becomes an association list with unique
  keys: inserting an existing key overwrites the value in place, a new key
  is appended.
* The stateful accessors become explicit state-passing functions
  `Clan → result × Clan`.
* The fields `labelCtor` / `memberCtor` instrument the state with the number
  of collaborator element-constructor invocations (the spec's observable
  side-effect counter for materialization); they influence nothing else.

Collaborators that live outside this module (`correct_tag`, `get`,
`try_enum`, and the `Label` / `ClanMember` element constructors) are
modelled from the spec, as indicated in their doc comments.
-/

namespace Coc

/-- A decoded `location` sub-record. -/
structure LocationData where
  id : Option Int
  name : Option String
deriving Repr, DecidableEq

/-- The resolved `Location` lookup value. -/
structure Location where
  id : Option Int
  name : Option String
deriving Repr, DecidableEq

/-- A decoded `warLeague` sub-record. -/
structure WarLeagueData where
  id : Option Int
  name : Option String
deriving Repr, DecidableEq

/-- The resolved `WarLeague` lookup value. -/
structure WarLeague where
  id : Option Int
  name : Option String
deriving Repr, DecidableEq

/-- A decoded label sub-record (element of the record's `labels` array). -/
structure LabelData where
  id : Option Int
  name : Option String
deriving Repr, DecidableEq

/-- A label value produced by the `label_cls` collaborator constructor. -/
structure Label where
  id : Option Int
  name : Option String
deriving Repr, DecidableEq

/-- A decoded member sub-record (element of the record's `memberList` array). -/
structure MemberData where
  tag : String
  name : Option String
  expLevel : Option Int
  role : Option String
deriving Repr, DecidableEq

/-- A member value produced by the `member_cls` collaborator constructor. -/
structure ClanMember where
  tag : String
  name : Option String
  expLevel : Option Int
  role : Option String
deriving Repr, DecidableEq

/-- Modelled from the spec: the `Tag(subrecord, context)` collaborator
constructor (`Label` in `coc.miscmodels`, not under `src/`) builds a label
value from its sub-record, tolerating absent optional fields. -/
def Label.ofData (d : LabelData) : Label :=
  ⟨d.id, d.name⟩

/-- Modelled from the spec: the `Member(subrecord, context, owner)`
collaborator constructor (`ClanMember` in `coc.players`, not under `src/`)
builds a member value from its sub-record, tolerating absent optional
fields. -/
def ClanMember.ofData (d : MemberData) : ClanMember :=
  ⟨d.tag, d.name, d.expLevel, d.role⟩

/-- Modelled from the spec: `try_enum(Location, data=...)` (`ResolveLookup`
in the spec, `coc.miscmodels.try_enum` not under `src/`) resolves a raw
sub-record into a lookup value, returning the unknown sentinel (`none`)
when the sub-record is absent; it never fails on absent input. -/
def try_enum_location : Option LocationData → Option Location :=
  Option.map fun d => ⟨d.id, d.name⟩

/-- Modelled from the spec: `try_enum(WarLeague, data=...)`, as
`try_enum_location` but for the war-league lookup. -/
def try_enum_war_league : Option WarLeagueData → Option WarLeague :=
  Option.map fun d => ⟨d.id, d.name⟩

/-- ASCII uppercase folding used by tag normalization. -/
def upChar (c : Char) : Char :=
  if 97 ≤ c.toNat ∧ c.toNat ≤ 122 then Char.ofNat (c.toNat - 32) else c

/-- Characters admitted in a normalized tag: `A`–`Z` and `0`–`9`. -/
def isTagChar (c : Char) : Bool :=
  (65 ≤ c.toNat ∧ c.toNat ≤ 90) ∨ (48 ≤ c.toNat ∧ c.toNat ≤ 57)

/-- Modelled from the spec: `coc.utils.correct_tag` (`NormalizeTag`, not
under `src/`) canonicalizes an identifier string: whitespace and other
stray characters are dropped, letters are uppercased, and a single leading
`#` marker is enforced. The spec requires it to be idempotent. -/
def correct_tag (t : String) : String :=
  ⟨'#' :: ((t.data.map upChar).filter isTagChar)⟩

/-- A decoded clan record: a mapping from the JSON keys used by
`clans.py` to optional values, with `dict.get` semantics (`none` on a
missing or null key). -/
structure ClanData where
  clanPoints : Option Int := none
  clanVersusPoints : Option Int := none
  members : Option Int := none
  location : Option LocationData := none
  type : Option String := none
  requiredTrophies : Option Int := none
  warFrequency : Option String := none
  warWinStreak : Option Int := none
  warWins : Option Int := none
  warTies : Option Int := none
  warLosses : Option Int := none
  isWarLogPublic : Option Bool := none
  description : Option String := none
  warLeague : Option WarLeagueData := none
  labels : Option (List LabelData) := none
  memberList : Option (List MemberData) := none
  rank : Option Int := none
  previousRank : Option Int := none
deriving Repr, DecidableEq

/-- The decoded empty record `{}`: every key is absent. -/
def emptyClanData : ClanData := {}

/-- `RankedClan`: the eager leader-board view; `RankedClan._from_data`
copies each field with `data.get` semantics. -/
structure RankedClan where
  location : Option Location
  member_count : Option Int
  points : Option Int
  versus_points : Option Int
  rank : Option Int
  previous_rank : Option Int
deriving Repr, DecidableEq

/-- `RankedClan.__init__` / `RankedClan._from_data`: field extraction from
the decoded record. -/
def RankedClan.init (data : ClanData) : RankedClan where
  location := try_enum_location data.location
  member_count := data.members
  points := data.clanPoints
  versus_points := data.clanVersusPoints
  rank := data.rank
  previous_rank := data.previousRank

/-- The state of a `Clan` instance: the eagerly extracted scalar fields,
the two pending one-shot element sequences (`__iter_labels`,
`__iter_members`, holding the source sub-records not yet consumed), the two
cache slots (`_labels`, `_members`; `_members` is an insertion-ordered
association list standing for the Python dict), and the two instrumentation
counters for collaborator element-constructor invocations. -/
structure Clan where
  type : Option String
  description : Option String
  location : Option Location
  points : Option Int
  versus_points : Option Int
  required_trophies : Option Int
  war_frequency : Option String
  war_win_streak : Option Int
  war_wins : Option Int
  war_ties : Option Int
  war_losses : Option Int
  public_war_log : Option Bool
  member_count : Option Int
  war_league : Option WarLeague
  __iter_labels : List LabelData
  __iter_members : List MemberData
  _labels : Option (List Label)
  _members : Option (List (String × ClanMember))
  labelCtor : Nat
  memberCtor : Nat
deriving Repr, DecidableEq

/-- `Clan.__init__` + `Clan._from_data`: eager scalar extraction, caches
`None`, pending sequences captured but not consumed (constructor counters
start at zero). `data.get("labels", [])` / `data.get("memberList", [])`
default to the empty array. -/
def Clan.init (data : ClanData) : Clan where
  type := data.type
  description := data.description
  location := try_enum_location data.location
  points := data.clanPoints
  versus_points := data.clanVersusPoints
  required_trophies := data.requiredTrophies
  war_frequency := data.warFrequency
  war_win_streak := data.warWinStreak
  war_wins := data.warWins
  war_ties := data.warTies
  war_losses := data.warLosses
  public_war_log := data.isWarLogPublic
  member_count := data.members
  war_league := try_enum_war_league data.warLeague
  __iter_labels := data.labels.getD []
  __iter_members := data.memberList.getD []
  _labels := none
  _members := none
  labelCtor := 0
  memberCtor := 0

/-- Insertion into the insertion-ordered dict `{m.tag: m for m in ...}`:
an existing key is overwritten in place, a new key is appended. -/
def odInsert (d : List (String × ClanMember)) (k : String) (v : ClanMember) :
    List (String × ClanMember) :=
  if d.any (fun p => p.1 == k) then
    d.map (fun p => if p.1 == k then (k, v) else p)
  else
    d ++ [(k, v)]

/-- The dict comprehension `{m.tag: m for m in iter}` over the remaining
elements of the pending member sequence. -/
def buildMembersDict (l : List MemberData) : List (String × ClanMember) :=
  l.foldl (fun d m => odInsert d m.tag (ClanMember.ofData m)) []

/-- `dict[tag]` guarded by `try/except KeyError`: first (only) entry with
the given key, `none` when absent. -/
def odLookup (d : List (String × ClanMember)) (k : String) : Option ClanMember :=
  (d.find? (fun p => p.1 == k)).map Prod.snd

/-- The `Clan.labels` property: return the cache when present, otherwise
drain the pending label sequence (`list(self.__iter_labels)`, one
collaborator constructor call per remaining element), cache and return it. -/
def Clan.labels (c : Clan) : List Label × Clan :=
  match c._labels with
  | some list_labels => (list_labels, c)
  | none =>
    let list_labels := c.__iter_labels.map Label.ofData
    (list_labels,
      { c with
          _labels := some list_labels
          __iter_labels := []
          labelCtor := c.labelCtor + c.__iter_labels.length })

/-- The `Clan.members` property: if `self._members is not None` return its
values, otherwise drain the pending member sequence into the dict
(one collaborator constructor call per remaining element), cache it, and
return its values. -/
def Clan.members (c : Clan) : List ClanMember × Clan :=
  match c._members with
  | some dict_members => (dict_members.map Prod.snd, c)
  | none =>
    let dict_members := buildMembersDict c.__iter_members
    (dict_members.map Prod.snd,
      { c with
          _members := some dict_members
          __iter_members := []
          memberCtor := c.memberCtor + c.__iter_members.length })

/-- The Python truthiness test `not dict_members` in `Clan.get_member`:
true when `self._members` is `None` or the empty dict. -/
def membersFalsy : Option (List (String × ClanMember)) → Bool
  | none => true
  | some d => d.isEmpty

/-- `Clan.get_member`: normalize the tag, re-derive the dict when
`self._members` is falsy (`None` or empty; draining the by-then exhausted
generator yields no constructor calls when already materialized), then look
the normalized tag up, `None` on `KeyError`. -/
def Clan.get_member (c : Clan) (tag : String) : Option ClanMember × Clan :=
  let t := correct_tag tag
  if membersFalsy c._members then
    let dict_members := buildMembersDict c.__iter_members
    (odLookup dict_members t,
      { c with
          _members := some dict_members
          __iter_members := []
          memberCtor := c.memberCtor + c.__iter_members.length })
  else
    (odLookup (c._members.getD []) t, c)

/-- An attribute-name/expected-value pair accepted by `get_member_by`,
resolved against the declared attributes of `ClanMember`. -/
inductive MemberAttr where
  | tag (v : String)
  | name (v : Option String)
  | expLevel (v : Option Int)
  | role (v : Option String)
deriving Repr, DecidableEq

/-- Equality comparison of one supplied attribute against a candidate. -/
def MemberAttr.matches : MemberAttr → ClanMember → Bool
  | .tag v, m => m.tag == v
  | .name v, m => m.name == v
  | .expLevel v, m => m.expLevel == v
  | .role v, m => m.role == v

/-- A candidate meets the attributes when every supplied pair matches. -/
def matchesAll (attrs : List MemberAttr) (m : ClanMember) : Bool :=
  attrs.all (fun a => a.matches m)

/-- Modelled from the spec: `coc.utils.get(iterable, **attrs)` (not under
`src/`) returns the first element of the iterable for which every supplied
attribute equals the corresponding attribute of the candidate, or `None`
when no element matches. -/
def get (l : List ClanMember) (attrs : List MemberAttr) : Option ClanMember :=
  l.find? (matchesAll attrs)

/-- `Clan.get_member_by`: materialize `members` if needed via the
`self.members` property and scan it with `coc.utils.get`. -/
def Clan.get_member_by (c : Clan) (attrs : List MemberAttr) :
    Option ClanMember × Clan :=
  let (ms, c') := c.members
  (get ms attrs, c')

/-- One public access to a `Clan` instance. -/
inductive ClanOp where
  | labels
  | members
  | get_member (tag : String)
  | get_member_by (attrs : List MemberAttr)
deriving Repr, DecidableEq

/-- The state transition of one access (result discarded). -/
def Clan.step (c : Clan) : ClanOp → Clan
  | .labels => c.labels.2
  | .members => c.members.2
  | .get_member t => (c.get_member t).2
  | .get_member_by attrs => (c.get_member_by attrs).2

/-- Run a sequence of accesses against an instance. -/
def Clan.run (c : Clan) (ops : List ClanOp) : Clan :=
  ops.foldl Clan.step c

/-- First-occurrence deduplication: the key order Python's dict
comprehension produces, used only to state iteration-order properties. -/
def dedupKeepFirst (l : List String) : List String :=
  l.foldl (fun acc k => if k ∈ acc then acc else acc ++ [k]) []

/-- The keys of the dict, in iteration order. -/
def odKeys (d : List (String × ClanMember)) : List String :=
  d.map Prod.fst

/-- Whenever the member cache is populated, the pending member sequence has
already been exhausted. -/
def MembersInv (c : Clan) : Prop :=
  ∀ d, c._members = some d → c.__iter_members = []

/-- Concrete one-member, one-label record used by the C1 witness. -/
def witDataC1 : ClanData :=
  { memberList := some [⟨"#A", some "ann", some 1, none⟩],
    labels := some [⟨some 7, some "x"⟩] }

/-! ### Tag normalization is idempotent -/

theorem upChar_of_isTagChar {c : Char} (h : isTagChar c = true) : upChar c = c := by
  simp only [isTagChar, decide_eq_true_eq] at h
  have hn : ¬(97 ≤ c.toNat ∧ c.toNat ≤ 122) := by omega
  simp [upChar, hn]

theorem filter_isTagChar_map_upChar (L : List Char) :
    (L.filter isTagChar).map upChar = L.filter isTagChar := by
  have h : (L.filter isTagChar).map upChar = (L.filter isTagChar).map id :=
    List.map_congr_left fun a ha => upChar_of_isTagChar (List.of_mem_filter ha)
  rw [h, List.map_id]

theorem correct_tag_idem (t : String) :
    correct_tag (correct_tag t) = correct_tag t := by
  unfold correct_tag
  have hd :
      (String.mk ('#' :: ((t.data.map upChar).filter isTagChar))).data
        = '#' :: ((t.data.map upChar).filter isTagChar) := rfl
  congr 1
  rw [hd, List.map_cons, List.filter_cons]
  have h1 : upChar '#' = '#' := by decide
  have h2 : isTagChar '#' = false := by decide
  rw [filter_isTagChar_map_upChar, h1, h2]
  have h3 : ((t.data.map upChar).filter isTagChar).filter isTagChar
      = (t.data.map upChar).filter isTagChar :=
    List.filter_eq_self.mpr fun a ha => List.of_mem_filter ha
  simp [h3]

/-! ### The insertion-ordered member dictionary -/

theorem mem_odKeys_iff_any (d : List (String × ClanMember)) (k : String) :
    d.any (fun p => p.1 == k) = true ↔ k ∈ odKeys d := by
  simp [odKeys, List.any_eq_true, List.mem_map]

theorem odKeys_odInsert (d : List (String × ClanMember)) (k : String) (v : ClanMember) :
    odKeys (odInsert d k v) = if k ∈ odKeys d then odKeys d else odKeys d ++ [k] := by
  unfold odInsert
  by_cases h : k ∈ odKeys d
  · rw [if_pos ((mem_odKeys_iff_any d k).mpr h), if_pos h]
    simp only [odKeys, List.map_map]
    apply List.map_congr_left
    intro p _
    simp only [Function.comp_apply]
    by_cases hpk : p.1 = k
    · simp [hpk]
    · simp [hpk]
  · rw [if_neg (fun hc => h ((mem_odKeys_iff_any d k).mp hc)), if_neg h]
    simp [odKeys]

theorem odLookup_odInsert (d : List (String × ClanMember)) (k v k') :
    odLookup (odInsert d k v) k' = if k' = k then some v else odLookup d k' := by
  unfold odInsert odLookup
  by_cases hmem : d.any (fun p => p.1 == k) = true
  · rw [if_pos hmem]
    have hfst : ∀ p : String × ClanMember,
        ((if p.1 == k then (k, v) else p).1 == k') = (p.1 == k') := by
      intro p
      by_cases hpk : p.1 = k
      · simp [hpk]
      · simp [hpk]
    rw [List.find?_map]
    have hcomp : ((fun p : String × ClanMember => p.1 == k') ∘
        fun p => if p.1 == k then (k, v) else p) = fun p => p.1 == k' := by
      funext p
      exact hfst p
    rw [hcomp]
    by_cases hk : k' = k
    · subst hk
      cases hf : d.find? (fun p => p.1 == k') with
      | none =>
        exfalso
        obtain ⟨p, hp, hpe⟩ := List.any_eq_true.mp hmem
        exact List.find?_eq_none.mp hf p hp hpe
      | some p =>
        have h0 := List.find?_some hf
        simp only [beq_iff_eq] at h0
        simp [h0]
    · rw [if_neg hk]
      cases hf : d.find? (fun p => p.1 == k') with
      | none => simp
      | some p =>
        have h0 := List.find?_some hf
        simp only [beq_iff_eq] at h0
        have hne : ¬ p.1 = k := by
          rw [h0]
          exact hk
        simp [hne]
  · rw [if_neg hmem, List.find?_append]
    by_cases hk : k' = k
    · subst hk
      have hnone : d.find? (fun p => p.1 == k') = none := by
        rw [List.find?_eq_none]
        intro p hp hpe
        exact hmem (List.any_eq_true.mpr ⟨p, hp, hpe⟩)
      simp [hnone, List.find?]
    · have : (k == k') = false := by
        simp [beq_eq_false_iff_ne]
        exact fun he => hk he.symm
      simp [if_neg hk, List.find?, this]

theorem buildMembersDict_keys_general (l : List MemberData)
    (d : List (String × ClanMember)) :
    odKeys ((l.foldl (fun d m => odInsert d m.tag (ClanMember.ofData m)) d))
      = (l.map (fun m => m.tag)).foldl
          (fun acc k => if k ∈ acc then acc else acc ++ [k]) (odKeys d) := by
  induction l generalizing d with
  | nil => rfl
  | cons m l ih =>
    rw [List.foldl_cons, List.map_cons, List.foldl_cons, ih, odKeys_odInsert]

/-- The keys of the materialized dict are the member tags in
first-occurrence order. -/
theorem buildMembersDict_keys (l : List MemberData) :
    odKeys (buildMembersDict l) = dedupKeepFirst (l.map (fun m => m.tag)) :=
  buildMembersDict_keys_general l []

theorem buildMembersDict_lookup_general (l : List MemberData) (k : String)
    (d : List (String × ClanMember)) :
    odLookup (l.foldl (fun d m => odInsert d m.tag (ClanMember.ofData m)) d) k
      = match l.reverse.find? (fun m => m.tag == k) with
        | some m => some (ClanMember.ofData m)
        | none => odLookup d k := by
  induction l generalizing d with
  | nil => rfl
  | cons m l ih =>
    rw [List.foldl_cons, ih, List.reverse_cons, List.find?_append]
    cases hf : l.reverse.find? (fun m => m.tag == k) with
    | some m' => simp [hf]
    | none =>
      rw [odLookup_odInsert]
      by_cases hk : k = m.tag
      · simp [hf, hk, List.find?]
      · have hne : (m.tag == k) = false := by
          simp [beq_eq_false_iff_ne]
          exact fun he => hk he.symm
        simp [hf, hk, List.find?, hne]

/-- Looking a key up in the materialized dict finds the member built from
the last source occurrence of that key. -/
theorem buildMembersDict_lookup (l : List MemberData) (k : String) :
    odLookup (buildMembersDict l) k
      = (l.reverse.find? (fun m => m.tag == k)).map ClanMember.ofData := by
  rw [buildMembersDict, buildMembersDict_lookup_general]
  cases hf : l.reverse.find? (fun m => m.tag == k) <;> simp [odLookup]

theorem buildMembersDict_consistent_general (l : List MemberData)
    (d : List (String × ClanMember)) (hd : ∀ p ∈ d, p.2.tag = p.1) :
    ∀ p ∈ l.foldl (fun d m => odInsert d m.tag (ClanMember.ofData m)) d,
      p.2.tag = p.1 := by
  induction l generalizing d with
  | nil => exact hd
  | cons m l ih =>
    rw [List.foldl_cons]
    apply ih
    intro p hp
    unfold odInsert at hp
    by_cases hmem : d.any (fun p => p.1 == m.tag) = true
    · rw [if_pos hmem] at hp
      obtain ⟨q, hq, hqe⟩ := List.mem_map.mp hp
      by_cases hqk : q.1 = m.tag
      · simp [hqk] at hqe
        rw [← hqe]
        rfl
      · simp [hqk] at hqe
        rw [← hqe]
        exact hd q hq
    · rw [if_neg hmem] at hp
      rcases List.mem_append.mp hp with h | h
      · exact hd p h
      · simp at h
        rw [h]
        rfl

/-- Every entry of the materialized dict is keyed by its member's tag. -/
theorem buildMembersDict_consistent (l : List MemberData) :
    ∀ p ∈ buildMembersDict l, p.2.tag = p.1 :=
  buildMembersDict_consistent_general l [] (by intro p hp; cases hp)

theorem buildMembersDict_nodup_general (l : List MemberData)
    (d : List (String × ClanMember)) (hl : (l.map (fun m => m.tag)).Nodup)
    (hdisj : ∀ m ∈ l, m.tag ∉ odKeys d) :
    l.foldl (fun d m => odInsert d m.tag (ClanMember.ofData m)) d
      = d ++ l.map (fun m => (m.tag, ClanMember.ofData m)) := by
  induction l generalizing d with
  | nil => simp
  | cons m l ih =>
    rw [List.foldl_cons]
    have hnotmem : ¬ d.any (fun p => p.1 == m.tag) = true := by
      intro hc
      exact hdisj m (List.mem_cons_self m l) ((mem_odKeys_iff_any d m.tag).mp hc)
    have hins : odInsert d m.tag (ClanMember.ofData m)
        = d ++ [(m.tag, ClanMember.ofData m)] := by
      unfold odInsert
      rw [if_neg hnotmem]
    rw [hins, List.map_cons, ih]
    · simp
    · exact (List.nodup_cons.mp (by simpa using hl)).2
    · intro m' hm'
      rw [odKeys]
      simp only [List.map_append, List.map_cons]
      intro hc
      rcases List.mem_append.mp hc with h | h
      · exact hdisj m' (List.mem_cons_of_mem m hm') h
      · simp at h
        have : m.tag ∈ l.map (fun m => m.tag) := by
          rw [← h]
          exact List.mem_map_of_mem _ hm'
        exact (List.nodup_cons.mp (by simpa using hl)).1 this

/-- With pairwise-distinct tags the materialized dict lists every member in
source order. -/
theorem buildMembersDict_nodup (l : List MemberData)
    (h : (l.map (fun m => m.tag)).Nodup) :
    buildMembersDict l = l.map (fun m => (m.tag, ClanMember.ofData m)) := by
  rw [buildMembersDict, buildMembersDict_nodup_general l [] h]
  · simp
  · intro m _ hc
    cases hc

/-! ### First-occurrence deduplication -/

theorem dedupKeepFirst_nodup_general (l acc : List String) (h : acc.Nodup) :
    (l.foldl (fun acc k => if k ∈ acc then acc else acc ++ [k]) acc).Nodup := by
  induction l generalizing acc with
  | nil => exact h
  | cons k l ih =>
    rw [List.foldl_cons]
    apply ih
    by_cases hk : k ∈ acc
    · simp [hk, h]
    · simp only [if_neg hk]
      refine List.Nodup.append h (List.nodup_singleton k) ?_
      intro a ha hb
      simp at hb
      rw [hb] at ha
      exact hk ha

theorem dedupKeepFirst_nodup (l : List String) : (dedupKeepFirst l).Nodup :=
  dedupKeepFirst_nodup_general l [] List.nodup_nil

theorem mem_dedupKeepFirst_general (l acc : List String) (a : String) :
    a ∈ l.foldl (fun acc k => if k ∈ acc then acc else acc ++ [k]) acc
      ↔ a ∈ acc ∨ a ∈ l := by
  induction l generalizing acc with
  | nil => simp
  | cons k l ih =>
    rw [List.foldl_cons, ih]
    by_cases hk : k ∈ acc
    · simp only [if_pos hk]
      constructor
      · rintro (h | h)
        · exact Or.inl h
        · exact Or.inr (List.mem_cons_of_mem k h)
      · rintro (h | h)
        · exact Or.inl h
        · rcases List.mem_cons.mp h with h | h
          · rw [h]; exact Or.inl hk
          · exact Or.inr h
    · simp only [if_neg hk, List.mem_append, List.mem_singleton, List.mem_cons]
      tauto

theorem mem_dedupKeepFirst (l : List String) (a : String) :
    a ∈ dedupKeepFirst l ↔ a ∈ l := by
  rw [dedupKeepFirst, mem_dedupKeepFirst_general]
  simp

/-- The number of keys in first-occurrence order equals the number of
distinct elements. -/
theorem length_dedupKeepFirst (l : List String) :
    (dedupKeepFirst l).length = l.dedup.length := by
  calc (dedupKeepFirst l).length
      = (dedupKeepFirst l).dedup.length := by
        rw [List.Nodup.dedup (dedupKeepFirst_nodup l)]
    _ = (dedupKeepFirst l).toFinset.card := (List.card_toFinset _).symm
    _ = l.toFinset.card := by
        congr 1
        ext a
        simp [List.mem_toFinset, mem_dedupKeepFirst]
    _ = l.dedup.length := List.card_toFinset l

/-! ### Searching the values of the dict -/

theorem find?_values_eq_find?_keys (d : List (String × ClanMember)) (k : String)
    (hd : ∀ p ∈ d, p.2.tag = p.1) :
    (d.map Prod.snd).find? (fun m => m.tag == k)
      = (d.find? (fun p => p.1 == k)).map Prod.snd := by
  induction d with
  | nil => rfl
  | cons p d ih =>
    have hp : p.2.tag = p.1 := hd p (List.mem_cons_self p d)
    by_cases hk : p.1 = k
    · simp [List.find?, hp, hk]
    · have h1 : (p.2.tag == k) = false := by
        simp [beq_eq_false_iff_ne, hp]
        exact hk
      have h2 : (p.1 == k) = false := by
        simp [beq_eq_false_iff_ne]
        exact hk
      simp only [List.map_cons, List.find?, h1, h2]
      exact ih fun q hq => hd q (List.mem_cons_of_mem p hq)

/-! ### Shapes of the accessors -/

theorem members_of_cached (c : Clan) (d : List (String × ClanMember))
    (h : c._members = some d) : c.members = (d.map Prod.snd, c) := by
  simp [Clan.members, h]

theorem members_of_uncached (c : Clan) (h : c._members = none) :
    c.members = ((buildMembersDict c.__iter_members).map Prod.snd,
      { c with
          _members := some (buildMembersDict c.__iter_members)
          __iter_members := []
          memberCtor := c.memberCtor + c.__iter_members.length }) := by
  simp [Clan.members, h]

theorem labels_of_cached (c : Clan) (r : List Label)
    (h : c._labels = some r) : c.labels = (r, c) := by
  simp [Clan.labels, h]

theorem labels_of_uncached (c : Clan) (h : c._labels = none) :
    c.labels = (c.__iter_labels.map Label.ofData,
      { c with
          _labels := some (c.__iter_labels.map Label.ofData)
          __iter_labels := []
          labelCtor := c.labelCtor + c.__iter_labels.length }) := by
  simp [Clan.labels, h]

theorem get_member_of_falsy (c : Clan) (t : String)
    (h : membersFalsy c._members = true) :
    c.get_member t = (odLookup (buildMembersDict c.__iter_members) (correct_tag t),
      { c with
          _members := some (buildMembersDict c.__iter_members)
          __iter_members := []
          memberCtor := c.memberCtor + c.__iter_members.length }) := by
  simp [Clan.get_member, h]

theorem get_member_of_truthy (c : Clan) (t : String)
    (h : membersFalsy c._members = false) :
    c.get_member t = (odLookup (c._members.getD []) (correct_tag t), c) := by
  simp [Clan.get_member, h]

theorem get_member_by_eq (c : Clan) (attrs : List MemberAttr) :
    c.get_member_by attrs = (get c.members.1 attrs, c.members.2) := by
  rcases hm : c.members with ⟨ms, c'⟩
  simp [Clan.get_member_by, hm]

/-! ### What each access leaves untouched -/

theorem members_snd_label_fields (c : Clan) :
    (c.members.2)._labels = c._labels ∧
    (c.members.2).__iter_labels = c.__iter_labels ∧
    (c.members.2).labelCtor = c.labelCtor := by
  cases h : c._members <;> simp [Clan.members, h]

theorem labels_snd_member_fields (c : Clan) :
    (c.labels.2)._members = c._members ∧
    (c.labels.2).__iter_members = c.__iter_members ∧
    (c.labels.2).memberCtor = c.memberCtor := by
  cases h : c._labels <;> simp [Clan.labels, h]

theorem get_member_snd_label_fields (c : Clan) (t : String) :
    ((c.get_member t).2)._labels = c._labels ∧
    ((c.get_member t).2).__iter_labels = c.__iter_labels ∧
    ((c.get_member t).2).labelCtor = c.labelCtor := by
  cases h : membersFalsy c._members <;>
    simp [get_member_of_falsy, get_member_of_truthy, h]

/-! ### Constructor-call accounting -/

theorem members_snd_member_sum (c : Clan) :
    (c.members.2).memberCtor + (c.members.2).__iter_members.length
      = c.memberCtor + c.__iter_members.length := by
  cases h : c._members <;> simp [Clan.members, h]

theorem get_member_snd_member_sum (c : Clan) (t : String) :
    ((c.get_member t).2).memberCtor + ((c.get_member t).2).__iter_members.length
      = c.memberCtor + c.__iter_members.length := by
  cases h : membersFalsy c._members <;>
    simp [get_member_of_falsy, get_member_of_truthy, h]

theorem labels_snd_label_sum (c : Clan) :
    (c.labels.2).labelCtor + (c.labels.2).__iter_labels.length
      = c.labelCtor + c.__iter_labels.length := by
  cases h : c._labels <;> simp [Clan.labels, h]

theorem step_member_sum (c : Clan) (op : ClanOp) :
    (c.step op).memberCtor + (c.step op).__iter_members.length
      = c.memberCtor + c.__iter_members.length := by
  cases op with
  | labels =>
    show (c.labels.2).memberCtor + (c.labels.2).__iter_members.length = _
    rw [(labels_snd_member_fields c).2.1, (labels_snd_member_fields c).2.2]
  | members => exact members_snd_member_sum c
  | get_member t => exact get_member_snd_member_sum c t
  | get_member_by attrs =>
    show ((c.get_member_by attrs).2).memberCtor
        + ((c.get_member_by attrs).2).__iter_members.length = _
    rw [get_member_by_eq]
    exact members_snd_member_sum c

theorem step_label_sum (c : Clan) (op : ClanOp) :
    (c.step op).labelCtor + (c.step op).__iter_labels.length
      = c.labelCtor + c.__iter_labels.length := by
  cases op with
  | labels => exact labels_snd_label_sum c
  | members =>
    show (c.members.2).labelCtor + (c.members.2).__iter_labels.length = _
    rw [(members_snd_label_fields c).2.1, (members_snd_label_fields c).2.2]
  | get_member t =>
    show ((c.get_member t).2).labelCtor + ((c.get_member t).2).__iter_labels.length = _
    rw [(get_member_snd_label_fields c t).2.1, (get_member_snd_label_fields c t).2.2]
  | get_member_by attrs =>
    show ((c.get_member_by attrs).2).labelCtor
        + ((c.get_member_by attrs).2).__iter_labels.length = _
    rw [get_member_by_eq, (members_snd_label_fields c).2.1,
      (members_snd_label_fields c).2.2]

theorem run_cons (c : Clan) (op : ClanOp) (ops : List ClanOp) :
    c.run (op :: ops) = (c.step op).run ops := rfl

theorem run_member_sum (ops : List ClanOp) (c : Clan) :
    (c.run ops).memberCtor + (c.run ops).__iter_members.length
      = c.memberCtor + c.__iter_members.length := by
  induction ops generalizing c with
  | nil => rfl
  | cons op ops ih =>
    rw [run_cons, ih (c.step op), step_member_sum]

theorem run_label_sum (ops : List ClanOp) (c : Clan) :
    (c.run ops).labelCtor + (c.run ops).__iter_labels.length
      = c.labelCtor + c.__iter_labels.length := by
  induction ops generalizing c with
  | nil => rfl
  | cons op ops ih =>
    rw [run_cons, ih (c.step op), step_label_sum]

/-! ### Stability of the caches -/

theorem labels_snd_stable (c : Clan) (r : List Label) (h : c._labels = some r) :
    c.labels.2 = c := by
  rw [labels_of_cached c r h]

theorem members_snd_stable (c : Clan) (d : List (String × ClanMember))
    (h : c._members = some d) : c.members.2 = c := by
  rw [members_of_cached c d h]

theorem get_member_snd_stable (c : Clan) (t : String)
    (d : List (String × ClanMember)) (h : c._members = some d)
    (hi : c.__iter_members = []) : (c.get_member t).2 = c := by
  cases hf : membersFalsy c._members with
  | false => rw [get_member_of_truthy c t hf]
  | true =>
    rw [get_member_of_falsy c t hf]
    have hd : d = [] := by
      rw [h] at hf
      simpa [membersFalsy, List.isEmpty_iff] using hf
    show { c with
        _members := some (buildMembersDict c.__iter_members)
        __iter_members := []
        memberCtor := c.memberCtor + c.__iter_members.length } = c
    rw [hi]
    show { c with
        _members := some []
        __iter_members := ([] : List MemberData)
        memberCtor := c.memberCtor + 0 } = c
    rw [← hd, ← h, ← hi]
    rfl

theorem step_members_stable (c : Clan) (d : List (String × ClanMember))
    (op : ClanOp) (h : c._members = some d) (hi : c.__iter_members = []) :
    (c.step op)._members = some d ∧ (c.step op).__iter_members = [] ∧
    (c.step op).memberCtor = c.memberCtor := by
  cases op with
  | labels =>
    refine ⟨?_, ?_, ?_⟩
    · rw [show c.step .labels = c.labels.2 from rfl, (labels_snd_member_fields c).1, h]
    · rw [show c.step .labels = c.labels.2 from rfl, (labels_snd_member_fields c).2.1, hi]
    · rw [show c.step .labels = c.labels.2 from rfl, (labels_snd_member_fields c).2.2]
  | members =>
    rw [show c.step .members = c.members.2 from rfl, members_snd_stable c d h]
    exact ⟨h, hi, rfl⟩
  | get_member t =>
    rw [show c.step (.get_member t) = (c.get_member t).2 from rfl,
      get_member_snd_stable c t d h hi]
    exact ⟨h, hi, rfl⟩
  | get_member_by attrs =>
    rw [show c.step (.get_member_by attrs) = (c.get_member_by attrs).2 from rfl,
      get_member_by_eq, members_snd_stable c d h]
    exact ⟨h, hi, rfl⟩

theorem step_labels_stable (c : Clan) (r : List Label) (op : ClanOp)
    (h : c._labels = some r) :
    (c.step op)._labels = some r ∧ (c.step op).labelCtor = c.labelCtor := by
  cases op with
  | labels =>
    rw [show c.step .labels = c.labels.2 from rfl, labels_snd_stable c r h]
    exact ⟨h, rfl⟩
  | members =>
    exact ⟨by rw [show c.step .members = c.members.2 from rfl,
        (members_snd_label_fields c).1, h],
      by rw [show c.step .members = c.members.2 from rfl,
        (members_snd_label_fields c).2.2]⟩
  | get_member t =>
    exact ⟨by rw [show c.step (.get_member t) = (c.get_member t).2 from rfl,
        (get_member_snd_label_fields c t).1, h],
      by rw [show c.step (.get_member t) = (c.get_member t).2 from rfl,
        (get_member_snd_label_fields c t).2.2]⟩
  | get_member_by attrs =>
    exact ⟨by rw [show c.step (.get_member_by attrs) = (c.get_member_by attrs).2 from rfl,
        get_member_by_eq, (members_snd_label_fields c).1, h],
      by rw [show c.step (.get_member_by attrs) = (c.get_member_by attrs).2 from rfl,
        get_member_by_eq, (members_snd_label_fields c).2.2]⟩

theorem run_members_stable (ops : List ClanOp) (c : Clan)
    (d : List (String × ClanMember)) (h : c._members = some d)
    (hi : c.__iter_members = []) :
    (c.run ops)._members = some d ∧ (c.run ops).__iter_members = [] ∧
    (c.run ops).memberCtor = c.memberCtor := by
  induction ops generalizing c with
  | nil => exact ⟨h, hi, rfl⟩
  | cons op ops ih =>
    obtain ⟨h1, h2, h3⟩ := step_members_stable c d op h hi
    obtain ⟨g1, g2, g3⟩ := ih (c.step op) h1 h2
    exact ⟨g1, g2, by rw [run_cons, g3, h3]⟩

theorem run_labels_stable (ops : List ClanOp) (c : Clan) (r : List Label)
    (h : c._labels = some r) :
    (c.run ops)._labels = some r ∧ (c.run ops).labelCtor = c.labelCtor := by
  induction ops generalizing c with
  | nil => exact ⟨h, rfl⟩
  | cons op ops ih =>
    obtain ⟨h1, h2⟩ := step_labels_stable c r op h
    obtain ⟨g1, g2⟩ := ih (c.step op) h1
    exact ⟨g1, by rw [run_cons, g2, h2]⟩

theorem step_members_inv (c : Clan) (op : ClanOp) (h : MembersInv c) :
    MembersInv (c.step op) := by
  cases hm : c._members with
  | some d =>
    obtain ⟨h1, h2, _⟩ := step_members_stable c d op hm (h d hm)
    intro d' hd'
    exact h2
  | none =>
    cases op with
    | labels =>
      intro d' hd'
      rw [show c.step .labels = c.labels.2 from rfl, (labels_snd_member_fields c).2.1]
      rw [show c.step .labels = c.labels.2 from rfl, (labels_snd_member_fields c).1, hm] at hd'
      cases hd'
    | members =>
      intro d' hd'
      rw [show c.step .members = c.members.2 from rfl, members_of_uncached c hm]
    | get_member t =>
      intro d' hd'
      have hf : membersFalsy c._members = true := by rw [hm]; rfl
      rw [show c.step (.get_member t) = (c.get_member t).2 from rfl,
        get_member_of_falsy c t hf]
    | get_member_by attrs =>
      intro d' hd'
      rw [show c.step (.get_member_by attrs) = (c.get_member_by attrs).2 from rfl,
        get_member_by_eq, members_of_uncached c hm]

theorem run_members_inv (ops : List ClanOp) (c : Clan) (h : MembersInv c) :
    MembersInv (c.run ops) := by
  induction ops generalizing c with
  | nil => exact h
  | cons op ops ih =>
    rw [run_cons]
    exact ih (c.step op) (step_members_inv c op h)

theorem init_members_inv (data : ClanData) : MembersInv (Clan.init data) := by
  intro d h
  cases h

theorem members_snd_isSome (c : Clan) : (c.members.2)._members.isSome = true := by
  cases h : c._members <;> simp [Clan.members, h]

theorem get_member_fst_eq (c : Clan) (t : String) :
    (c.get_member t).1
      = odLookup ((c.get_member t).2._members.getD []) (correct_tag t) := by
  cases hf : membersFalsy c._members with
  | true =>
    rw [get_member_of_falsy c t hf]
    rfl
  | false =>
    rw [get_member_of_truthy c t hf]

theorem find?_first {α : Type} (p : α → Bool) (l : List α) (a : α)
    (h : l.find? p = some a) :
    p a = true ∧ ∃ i, ∃ hi : i < l.length, l.get ⟨i, hi⟩ = a ∧
      ∀ j, ∀ hj : j < i, p (l.get ⟨j, Nat.lt_trans hj hi⟩) = false := by
  induction l with
  | nil => cases h
  | cons x xs ih =>
    cases hp : p x with
    | true =>
      rw [List.find?_cons_of_pos _ hp] at h
      obtain rfl : x = a := by injection h
      refine ⟨hp, 0, by simp, rfl, ?_⟩
      intro j hj
      cases hj
    | false =>
      rw [List.find?_cons_of_neg _ (by simp [hp])] at h
      obtain ⟨ha, i, hi, hget, hbefore⟩ := ih h
      refine ⟨ha, i + 1, by simpa using Nat.succ_lt_succ hi, by simpa using hget, ?_⟩
      intro j hj
      match j with
      | 0 => simpa using hp
      | j' + 1 =>
        have hj' : j' < i := Nat.lt_of_succ_lt_succ hj
        simpa using hbefore j' hj'

/-! ### The claims -/

/-- C5: `get_member` applies the tag-normalization collaborator to its
argument before the lookup, so looking up a raw tag and looking up its
normalized form return the same result (and leave the same state). -/
theorem clan_get_member_normalizes_tag (c : Clan) (t : String) :
    c.get_member t = c.get_member (correct_tag t) := by
  unfold Clan.get_member
  rw [correct_tag_idem]

/-- C6: when the member mapping materialized by the call is empty or does
not contain the normalized tag as a key, `get_member` returns the explicit
not-found result `none` (the embedding is a total function, so no exception
can be raised). -/
theorem clan_get_member_absent_returns_none (c : Clan) (t : String)
    (h : (c.get_member t).2._members.getD [] = [] ∨
      correct_tag t ∉ odKeys ((c.get_member t).2._members.getD [])) :
    (c.get_member t).1 = none := by
  rw [get_member_fst_eq]
  rcases h with h | h
  · rw [h]
    rfl
  · unfold odLookup
    have hnone : ((c.get_member t).2._members.getD []).find?
        (fun p => p.1 == correct_tag t) = none := by
      rw [List.find?_eq_none]
      intro p hp hpe
      exact h (by
        rw [← beq_iff_eq.mp hpe]
        exact List.mem_map_of_mem Prod.fst hp)
    rw [hnone]
    rfl

/-- Witness for C6 at a concrete input: a clan built from the empty record
has an empty member mapping, and `get_member` returns `none` there. -/
theorem clan_get_member_absent_returns_none_witness :
    ((Clan.init emptyClanData).get_member "#NOPE").1 = none :=
  clan_get_member_absent_returns_none (Clan.init emptyClanData) "#NOPE"
    (Or.inl (by rfl))

/-- C8: the list returned by the `labels` accessor is the source array
mapped elementwise through the label constructor: same length, same order,
duplicates preserved at their positions. -/
theorem clan_labels_order_preserved (data : ClanData) :
    (Clan.init data).labels.1 = (data.labels.getD []).map Label.ofData ∧
    (Clan.init data).labels.1.length = (data.labels.getD []).length := by
  have h := labels_of_uncached (Clan.init data) rfl
  rw [h]
  exact ⟨rfl, List.length_map _ _⟩

/-- C9: constructing a `Clan` from the empty record `{}` succeeds, every
scalar field equals the unknown sentinel `none`, the labels accessor
returns the empty list, and the members accessor returns the empty
collection. -/
theorem clan_empty_record :
    (Clan.init emptyClanData).type = none ∧
    (Clan.init emptyClanData).description = none ∧
    (Clan.init emptyClanData).location = none ∧
    (Clan.init emptyClanData).points = none ∧
    (Clan.init emptyClanData).versus_points = none ∧
    (Clan.init emptyClanData).required_trophies = none ∧
    (Clan.init emptyClanData).war_frequency = none ∧
    (Clan.init emptyClanData).war_win_streak = none ∧
    (Clan.init emptyClanData).war_wins = none ∧
    (Clan.init emptyClanData).war_ties = none ∧
    (Clan.init emptyClanData).war_losses = none ∧
    (Clan.init emptyClanData).public_war_log = none ∧
    (Clan.init emptyClanData).member_count = none ∧
    (Clan.init emptyClanData).war_league = none ∧
    (Clan.init emptyClanData).labels.1 = [] ∧
    (Clan.init emptyClanData).members.1 = [] := by
  decide

/-- C7: for every record, each optional scalar key that is missing yields
the unknown sentinel `none` on the corresponding field of `RankedClan` or
`Clan` — independently per field and never a zero, empty, or default
value — and the lookup resolution for `location` and `warLeague` succeeds
(returning `none`) on absent input. -/
theorem clan_missing_fields_unknown_sentinel (data : ClanData) :
    (data.clanPoints = none → (RankedClan.init data).points = none) ∧
    (data.clanVersusPoints = none → (RankedClan.init data).versus_points = none) ∧
    (data.members = none → (RankedClan.init data).member_count = none) ∧
    (data.location = none → (RankedClan.init data).location = none) ∧
    (data.rank = none → (RankedClan.init data).rank = none) ∧
    (data.previousRank = none → (RankedClan.init data).previous_rank = none) ∧
    (data.type = none → (Clan.init data).type = none) ∧
    (data.description = none → (Clan.init data).description = none) ∧
    (data.location = none → (Clan.init data).location = none) ∧
    (data.clanPoints = none → (Clan.init data).points = none) ∧
    (data.clanVersusPoints = none → (Clan.init data).versus_points = none) ∧
    (data.requiredTrophies = none → (Clan.init data).required_trophies = none) ∧
    (data.warFrequency = none → (Clan.init data).war_frequency = none) ∧
    (data.warWinStreak = none → (Clan.init data).war_win_streak = none) ∧
    (data.warWins = none → (Clan.init data).war_wins = none) ∧
    (data.warTies = none → (Clan.init data).war_ties = none) ∧
    (data.warLosses = none → (Clan.init data).war_losses = none) ∧
    (data.isWarLogPublic = none → (Clan.init data).public_war_log = none) ∧
    (data.members = none → (Clan.init data).member_count = none) ∧
    (data.warLeague = none → (Clan.init data).war_league = none) ∧
    try_enum_location none = none ∧
    try_enum_war_league none = none := by
  refine ⟨fun h => ?_, fun h => ?_, fun h => ?_, fun h => ?_, fun h => ?_,
    fun h => ?_, fun h => ?_, fun h => ?_, fun h => ?_, fun h => ?_,
    fun h => ?_, fun h => ?_, fun h => ?_, fun h => ?_, fun h => ?_,
    fun h => ?_, fun h => ?_, fun h => ?_, fun h => ?_, fun h => ?_,
    rfl, rfl⟩ <;>
    simp [RankedClan.init, Clan.init, try_enum_location, try_enum_war_league, h]

/-- Witness for C7 at a concrete input: the empty record has every key
absent, and the corresponding fields are all `none`. -/
theorem clan_missing_fields_unknown_sentinel_witness :
    (RankedClan.init emptyClanData).points = none ∧
    (RankedClan.init emptyClanData).location = none ∧
    (Clan.init emptyClanData).member_count = none ∧
    (Clan.init emptyClanData).war_league = none := by
  have h := clan_missing_fields_unknown_sentinel emptyClanData
  exact ⟨h.1 rfl, h.2.2.2.1 rfl,
    h.2.2.2.2.2.2.2.2.2.2.2.2.2.2.2.2.2.2.1 rfl,
    h.2.2.2.2.2.2.2.2.2.2.2.2.2.2.2.2.2.2.2.1 rfl⟩

/-- C2: when the member source array contains duplicate tags (witnessed
here for the normalized tag `correct_tag t` occurring at least twice), the
materialized members collection has one entry per unique tag, and
`get_member` for the duplicated tag returns the member built from the last
occurrence in the source array. -/
theorem clan_duplicate_tags_members (data : ClanData) (t : String)
    (_hdup : 2 ≤ ((data.memberList.getD []).filter
      (fun m => m.tag == correct_tag t)).length) :
    (Clan.init data).members.1.length
      = ((data.memberList.getD []).map (fun m => m.tag)).dedup.length ∧
    ((Clan.init data).get_member t).1
      = ((data.memberList.getD []).reverse.find?
          (fun m => m.tag == correct_tag t)).map ClanMember.ofData := by
  constructor
  · rw [members_of_uncached (Clan.init data) rfl]
    show ((buildMembersDict (data.memberList.getD [])).map Prod.snd).length = _
    rw [List.length_map, ← length_dedupKeepFirst,
      ← buildMembersDict_keys (data.memberList.getD []), odKeys, List.length_map]
  · rw [get_member_of_falsy (Clan.init data) t rfl]
    show odLookup (buildMembersDict (data.memberList.getD [])) (correct_tag t) = _
    exact buildMembersDict_lookup _ _

/-- Witness for C2 at a concrete input: two members share the tag `#22`,
the materialized collection has two entries for three sub-records, and
`get_member "#22"` returns the member built from the third sub-record. -/
theorem clan_duplicate_tags_members_witness :
    (Clan.init { memberList := some [⟨"#22", some "a", some 1, none⟩,
        ⟨"#90", some "b", some 2, none⟩,
        ⟨"#22", some "c", some 3, none⟩] }).members.1.length = 2 ∧
    ((Clan.init { memberList := some [⟨"#22", some "a", some 1, none⟩,
        ⟨"#90", some "b", some 2, none⟩,
        ⟨"#22", some "c", some 3, none⟩] }).get_member "#22").1
      = some ⟨"#22", some "c", some 3, none⟩ := by
  have h := clan_duplicate_tags_members
    { memberList := some [⟨"#22", some "a", some 1, none⟩,
        ⟨"#90", some "b", some 2, none⟩,
        ⟨"#22", some "c", some 3, none⟩] } "#22" (by decide)
  exact ⟨by rw [h.1]; decide, by rw [h.2]; decide⟩

/-- C10: the iteration order of the materialized members collection places
each member at the position of the first occurrence of its tag in the
source array, while its value is the member built from the last occurrence
of that tag; members with pairwise-distinct tags appear in source-array
order. -/
theorem clan_members_iteration_order (data : ClanData) :
    ((Clan.init data).members.1).map (fun m => m.tag)
      = dedupKeepFirst ((data.memberList.getD []).map (fun m => m.tag)) ∧
    (∀ k, ((Clan.init data).members.1).find? (fun m => m.tag == k)
      = ((data.memberList.getD []).reverse.find?
          (fun m => m.tag == k)).map ClanMember.ofData) ∧
    (((data.memberList.getD []).map (fun m => m.tag)).Nodup →
      (Clan.init data).members.1 = (data.memberList.getD []).map ClanMember.ofData) := by
  have hm : (Clan.init data).members.1
      = (buildMembersDict (data.memberList.getD [])).map Prod.snd := by
    rw [members_of_uncached (Clan.init data) rfl]
    rfl
  refine ⟨?_, ?_, ?_⟩
  · rw [hm, List.map_map, ← buildMembersDict_keys (data.memberList.getD []), odKeys]
    apply List.map_congr_left
    intro p hp
    exact buildMembersDict_consistent (data.memberList.getD []) p hp
  · intro k
    rw [hm, find?_values_eq_find?_keys _ _ (buildMembersDict_consistent _),
      show ((buildMembersDict (data.memberList.getD [])).find?
          (fun p => p.1 == k)).map Prod.snd
        = odLookup (buildMembersDict (data.memberList.getD [])) k from rfl,
      buildMembersDict_lookup]
  · intro hnodup
    rw [hm, buildMembersDict_nodup _ hnodup, List.map_map]
    rfl

/-- Witness for C10 at a concrete input: with source tags
`#5, #9, #5, #7` the materialized order is `#5, #9, #7`, the entry for
`#5` is the member from the third sub-record, and a distinct-tag source is
returned in source order. -/
theorem clan_members_iteration_order_witness :
    ((Clan.init { memberList := some [⟨"#5", some "a", none, none⟩,
        ⟨"#9", some "b", none, none⟩, ⟨"#5", some "c", none, none⟩,
        ⟨"#7", some "d", none, none⟩] }).members.1).map (fun m => m.tag)
      = ["#5", "#9", "#7"] ∧
    ((Clan.init { memberList := some [⟨"#5", some "a", none, none⟩,
        ⟨"#9", some "b", none, none⟩, ⟨"#5", some "c", none, none⟩,
        ⟨"#7", some "d", none, none⟩] }).members.1).find?
        (fun m => m.tag == "#5") = some ⟨"#5", some "c", none, none⟩ ∧
    (Clan.init { memberList := some [⟨"#2", some "x", none, none⟩,
        ⟨"#3", some "y", none, none⟩] }).members.1
      = [⟨"#2", some "x", none, none⟩, ⟨"#3", some "y", none, none⟩] := by
  have h1 := clan_members_iteration_order
    { memberList := some [⟨"#5", some "a", none, none⟩,
        ⟨"#9", some "b", none, none⟩, ⟨"#5", some "c", none, none⟩,
        ⟨"#7", some "d", none, none⟩] }
  have h2 := clan_members_iteration_order
    { memberList := some [⟨"#2", some "x", none, none⟩,
        ⟨"#3", some "y", none, none⟩] }
  refine ⟨by rw [h1.1]; decide, by rw [h1.2.1 "#5"]; decide,
    by rw [h2.2.2 (by decide)]; decide⟩

theorem labels_snd_cache (c : Clan) : (c.labels.2)._labels = some (c.labels.1) := by
  cases h : c._labels <;> simp [Clan.labels, h]

theorem members_snd_cache (c : Clan) :
    ∃ D, (c.members.2)._members = some D ∧ D.map Prod.snd = c.members.1 := by
  cases h : c._members with
  | some d =>
    refine ⟨d, ?_, ?_⟩
    · rw [members_of_cached c d h]
      exact h
    · rw [members_of_cached c d h]
  | none =>
    refine ⟨buildMembersDict c.__iter_members, ?_, ?_⟩
    · rw [members_of_uncached c h]
    · rw [members_of_uncached c h]

/-- C3: the N-th call to `labels` returns a result structurally equal to
the first call's result, and likewise for `members`, for every clan
instance and regardless of the accesses interleaved before, between, or
after the two calls. -/
theorem clan_accessors_idempotent (data : ClanData) (ops1 ops2 ops3 : List ClanOp) :
    ((((Clan.init data).run ops1).labels.2).run ops2).labels.1
      = ((Clan.init data).run ops1).labels.1 ∧
    ((((Clan.init data).run ops1).members.2).run ops3).members.1
      = ((Clan.init data).run ops1).members.1 := by
  constructor
  · have h1 := labels_snd_cache ((Clan.init data).run ops1)
    obtain ⟨h2, _⟩ := run_labels_stable ops2 _ _ h1
    rw [labels_of_cached _ _ h2]
  · have hinv : MembersInv ((Clan.init data).run ops1) :=
      run_members_inv ops1 _ (init_members_inv data)
    obtain ⟨D, hD, hDv⟩ := members_snd_cache ((Clan.init data).run ops1)
    have hinv2 : MembersInv (((Clan.init data).run ops1).members.2) :=
      step_members_inv ((Clan.init data).run ops1) .members hinv
    obtain ⟨g1, _, _⟩ := run_members_stable ops3 _ D hD (hinv2 D hD)
    rw [members_of_cached _ D g1]
    exact hDv

/-- C4: `get_member_by` materializes the members collection if needed and
returns the first member, in the stable iteration order of the materialized
collection, whose every supplied attribute equals the expected value; when
no member matches it returns the not-found result `none`. -/
theorem clan_get_member_by_first_match (data : ClanData) (ops : List ClanOp)
    (attrs : List MemberAttr) (_hne : attrs ≠ []) :
    ((((Clan.init data).run ops).get_member_by attrs).1
      = (((Clan.init data).run ops).members.1).find? (matchesAll attrs)) ∧
    ((((Clan.init data).run ops).get_member_by attrs).2)._members.isSome = true ∧
    ((((Clan.init data).run ops).get_member_by attrs).1 = none ↔
      ∀ m ∈ ((Clan.init data).run ops).members.1, matchesAll attrs m = false) ∧
    (∀ m, (((Clan.init data).run ops).get_member_by attrs).1 = some m →
      matchesAll attrs m = true ∧
      ∃ i, ∃ hi : i < ((Clan.init data).run ops).members.1.length,
        (((Clan.init data).run ops).members.1).get ⟨i, hi⟩ = m ∧
        ∀ j, ∀ hj : j < i,
          matchesAll attrs ((((Clan.init data).run ops).members.1).get
            ⟨j, Nat.lt_trans hj hi⟩) = false) := by
  have heq : (((Clan.init data).run ops).get_member_by attrs).1
      = (((Clan.init data).run ops).members.1).find? (matchesAll attrs) := by
    rw [get_member_by_eq]
    rfl
  refine ⟨heq, ?_, ?_, ?_⟩
  · rw [get_member_by_eq]
    exact members_snd_isSome _
  · rw [heq, List.find?_eq_none]
    constructor
    · intro h m hm
      simpa using h m hm
    · intro h m hm
      simp [h m hm]
  · intro m hm
    rw [heq] at hm
    exact find?_first _ _ _ hm

/-- Witness for C4 at a concrete input: of the two members with level 99
the earlier-materialized one is returned, and an unmatched level yields
`none`. -/
theorem clan_get_member_by_first_match_witness :
    (((Clan.init { memberList := some [⟨"#1", some "ann", some 99, none⟩,
        ⟨"#2", some "bob", some 99, none⟩] }).run []).get_member_by
        [.expLevel (some 99)]).1 = some ⟨"#1", some "ann", some 99, none⟩ ∧
    (((Clan.init { memberList := some [⟨"#1", some "ann", some 99, none⟩,
        ⟨"#2", some "bob", some 99, none⟩] }).run []).get_member_by
        [.expLevel (some 125)]).1 = none := by
  have h1 := clan_get_member_by_first_match
    { memberList := some [⟨"#1", some "ann", some 99, none⟩,
        ⟨"#2", some "bob", some 99, none⟩] } [] [.expLevel (some 99)] (by decide)
  have h2 := clan_get_member_by_first_match
    { memberList := some [⟨"#1", some "ann", some 99, none⟩,
        ⟨"#2", some "bob", some 99, none⟩] } [] [.expLevel (some 125)] (by decide)
  constructor
  · rw [h1.1]
    decide
  · rw [h2.1]
    decide

/-- C1: over every number and interleaving of accesses (including on a clan
whose member list is empty), each pending element sequence is consumed at
most once: the element constructors run at most once per source sub-record,
and once a collection is materialized (its cache slot is populated) no
later access by key, predicate, or enumeration invokes a constructor
again. -/
theorem clan_pending_sequences_consumed_at_most_once (data : ClanData)
    (ops : List ClanOp) :
    ((Clan.init data).run ops).memberCtor ≤ (data.memberList.getD []).length ∧
    ((Clan.init data).run ops).labelCtor ≤ (data.labels.getD []).length ∧
    (∀ more, ((Clan.init data).run ops)._members.isSome = true →
      (((Clan.init data).run ops).run more).memberCtor
        = ((Clan.init data).run ops).memberCtor) ∧
    (∀ more, ((Clan.init data).run ops)._labels.isSome = true →
      (((Clan.init data).run ops).run more).labelCtor
        = ((Clan.init data).run ops).labelCtor) := by
  refine ⟨?_, ?_, ?_, ?_⟩
  · have h := run_member_sum ops (Clan.init data)
    have h1 : (Clan.init data).memberCtor + (Clan.init data).__iter_members.length
        = (data.memberList.getD []).length := by
      show 0 + (data.memberList.getD []).length = _
      omega
    omega
  · have h := run_label_sum ops (Clan.init data)
    have h1 : (Clan.init data).labelCtor + (Clan.init data).__iter_labels.length
        = (data.labels.getD []).length := by
      show 0 + (data.labels.getD []).length = _
      omega
    omega
  · intro more hsome
    obtain ⟨d, hd⟩ := Option.isSome_iff_exists.mp hsome
    have hinv : MembersInv ((Clan.init data).run ops) :=
      run_members_inv ops _ (init_members_inv data)
    exact (run_members_stable more _ d hd (hinv d hd)).2.2
  · intro more hsome
    obtain ⟨r, hr⟩ := Option.isSome_iff_exists.mp hsome
    exact (run_labels_stable more _ r hr).2

/-- Witness for C1 at concrete inputs: after materializing both collections
of a one-member one-label clan, the constructor counters are within the
source lengths and further accesses (enumeration, key lookup, predicate
lookup) leave them unchanged; the same holds on a clan with an empty member
list. -/
theorem clan_pending_sequences_consumed_at_most_once_witness :
    ((Clan.init witDataC1).run [.members, .labels]).memberCtor ≤ 1 ∧
    (((Clan.init witDataC1).run [.members, .labels]).run
        [.members, .get_member "#A", .get_member_by [.name (some "ann")],
          .labels]).memberCtor
      = ((Clan.init witDataC1).run [.members, .labels]).memberCtor ∧
    (((Clan.init witDataC1).run [.members, .labels]).run
        [.members, .get_member "#A", .labels]).labelCtor
      = ((Clan.init witDataC1).run [.members, .labels]).labelCtor ∧
    (((Clan.init emptyClanData).run [.members]).run
        [.get_member "#A", .members]).memberCtor
      = ((Clan.init emptyClanData).run [.members]).memberCtor := by
  have h1 := clan_pending_sequences_consumed_at_most_once witDataC1
    [.members, .labels]
  have h2 := clan_pending_sequences_consumed_at_most_once emptyClanData [.members]
  refine ⟨by simpa using h1.1,
    h1.2.2.1 [.members, .get_member "#A", .get_member_by [.name (some "ann")],
      .labels] (by decide),
    h1.2.2.2 [.members, .get_member "#A", .labels] (by decide),
    h2.2.2.1 [.get_member "#A", .members] (by decide)⟩

end Coc
